import Mathlib

/-!
Verification of the `globals_in_loop_check` static-analysis tool
(`src/globals_in_loop_check/checker.py`).

The Python code walks a parsed `ast` tree, collects the module-level
("global") assignment targets with `find_globals`, and then runs a
`GlobalUsageChecker` (an `ast.NodeVisitor`) that, for every `For`,
`While`, `ListComp`, `SetComp` and `DictComp` node, scans the node's
entire subtree with `ast.walk` (a breadth-first traversal) and records
a violation `(name, lineno)` for every `Name` node in `Load` context
whose identifier is a known global.

We embed the fragment of the Python AST that the checker can observe.
Only `Name` nodes carry a line number here, because the checker reads
line numbers from `Name` nodes alone; context marker objects
(`Load`/`Store` instances) and operator objects, which `ast.walk`
yields but which are never `Name` instances, are elided since no part
of the analysed code can distinguish their presence.
-/

/-- Expression context of a `Name` node: `ast.Load` vs `ast.Store`. -/
inductive Ctx where
  | load
  | store

/-- The fragment of the Python AST observed by the checker.  Field order of
every constructor follows the field order of the corresponding `ast` node,
so that `children` below enumerates child nodes exactly in the order of
`ast.iter_child_nodes`. -/
inductive Node where
  | module (body : List Node)
  | functionDef (name : String) (body : List Node)
  | classDef (name : String) (body : List Node)
  | ret (value : Node)
  | retNone
  | assign (targets : List Node) (value : Node)
  | augAssign (target : Node) (value : Node)
  | forStmt (target : Node) (iter : Node) (body : List Node) (orelse : List Node)
  | whileStmt (test : Node) (body : List Node) (orelse : List Node)
  | ifStmt (test : Node) (body : List Node) (orelse : List Node)
  | exprStmt (value : Node)
  | pass
  | breakStmt
  | name (id : String) (ctx : Ctx) (lineno : Nat)
  | call (func : Node) (args : List Node)
  | binOp (left : Node) (right : Node)
  | compare (left : Node) (comparators : List Node)
  | constant
  | listComp (elt : Node) (generators : List Node)
  | setComp (elt : Node) (generators : List Node)
  | dictComp (key : Node) (value : Node) (generators : List Node)
  | comprehension (target : Node) (iter : Node) (ifs : List Node)
  | attr (value : Node) (attrName : String) (ctx : Ctx)
  | subscript (value : Node) (slice : Node) (ctx : Ctx)
  | tuple (elts : List Node) (ctx : Ctx)
  | listExpr (elts : List Node) (ctx : Ctx)

namespace Node

/-- The direct child AST nodes in field order: `ast.iter_child_nodes`. -/
def children : Node → List Node
  | module body => body
  | functionDef _ body => body
  | classDef _ body => body
  | ret value => [value]
  | retNone => []
  | assign targets value => targets ++ [value]
  | augAssign target value => [target, value]
  | forStmt target iter body orelse => target :: iter :: (body ++ orelse)
  | whileStmt test body orelse => test :: (body ++ orelse)
  | ifStmt test body orelse => test :: (body ++ orelse)
  | exprStmt value => [value]
  | pass => []
  | breakStmt => []
  | name _ _ _ => []
  | call func args => func :: args
  | binOp left right => [left, right]
  | compare left comparators => left :: comparators
  | constant => []
  | listComp elt generators => elt :: generators
  | setComp elt generators => elt :: generators
  | dictComp key value generators => key :: value :: generators
  | comprehension target iter ifs => target :: iter :: ifs
  | attr value _ _ => [value]
  | subscript value slice _ => [value, slice]
  | tuple elts _ => elts
  | listExpr elts _ => elts

mutual

/-- Number of AST nodes in the tree rooted at a node (used as a
termination measure for the traversals below). -/
def size : Node → Nat
  | module body => 1 + sizeL body
  | functionDef _ body => 1 + sizeL body
  | classDef _ body => 1 + sizeL body
  | ret value => 1 + size value
  | retNone => 1
  | assign targets value => 1 + sizeL targets + size value
  | augAssign target value => 1 + size target + size value
  | forStmt target iter body orelse => 1 + size target + size iter + sizeL body + sizeL orelse
  | whileStmt test body orelse => 1 + size test + sizeL body + sizeL orelse
  | ifStmt test body orelse => 1 + size test + sizeL body + sizeL orelse
  | exprStmt value => 1 + size value
  | pass => 1
  | breakStmt => 1
  | name _ _ _ => 1
  | call func args => 1 + size func + sizeL args
  | binOp left right => 1 + size left + size right
  | compare left comparators => 1 + size left + sizeL comparators
  | constant => 1
  | listComp elt generators => 1 + size elt + sizeL generators
  | setComp elt generators => 1 + size elt + sizeL generators
  | dictComp key value generators => 1 + size key + size value + sizeL generators
  | comprehension target iter ifs => 1 + size target + size iter + sizeL ifs
  | attr value _ _ => 1 + size value
  | subscript value slice _ => 1 + size value + size slice
  | tuple elts _ => 1 + sizeL elts
  | listExpr elts _ => 1 + sizeL elts

/-- Total size of a list of nodes. -/
def sizeL : List Node → Nat
  | [] => 0
  | n :: rest => size n + sizeL rest

end

theorem sizeL_append (l₁ l₂ : List Node) : sizeL (l₁ ++ l₂) = sizeL l₁ + sizeL l₂ := by
  induction l₁ with
  | nil => simp [sizeL]
  | cons n rest ih => simp [sizeL, ih]; omega

theorem size_pos (n : Node) : 0 < size n := by
  cases n <;> simp only [size] <;> omega

theorem sizeL_children_lt (n : Node) : sizeL (children n) < size n := by
  cases n with
  | _ => simp [children, size, sizeL, sizeL_append] <;> omega

theorem size_le_sizeL_of_mem {n : Node} {l : List Node} (h : n ∈ l) : size n ≤ sizeL l := by
  induction l with
  | nil => cases h
  | cons m rest ih =>
    rcases List.mem_cons.mp h with h | h
    · subst h; simp only [sizeL]; omega
    · have := ih h; simp only [sizeL]; omega

end Node

namespace Node

theorem size_lt_of_mem_children {c n : Node} (h : c ∈ children n) : size c < size n :=
  lt_of_le_of_lt (size_le_sizeL_of_mem h) (sizeL_children_lt n)

/-- The queue loop of `ast.walk`: yields the
node at the head of the queue and pushes its children at the back, i.e. a
breadth-first enumeration of all nodes of the subtrees in the queue. -/
def walkAux : List Node → List Node
  | [] => []
  | n :: todo => n :: walkAux (todo ++ children n)
termination_by l => sizeL l
decreasing_by
  have h := sizeL_children_lt n
  simp only [sizeL, sizeL_append]
  omega

/-- The enumeration `ast.walk node`: breadth-first over the subtree rooted at a node,
starting with the node itself. -/
def walk (n : Node) : List Node := walkAux [n]

/-- Depth-first, left-to-right pre-order enumeration of the subtrees of a
stack of nodes: yields the top node, then pushes its children on the stack. -/
def preorderAux : List Node → List Node
  | [] => []
  | n :: stack => n :: preorderAux (children n ++ stack)
termination_by l => sizeL l
decreasing_by
  have h := sizeL_children_lt n
  simp only [sizeL, sizeL_append]
  omega

/-- Depth-first, left-to-right pre-order enumeration of a subtree. -/
def preorder (n : Node) : List Node := preorderAux [n]

theorem preorderAux_append (l₁ l₂ : List Node) :
    preorderAux (l₁ ++ l₂) = preorderAux l₁ ++ preorderAux l₂ := by
  match l₁ with
  | [] =>
    have h0 : preorderAux ([] : List Node) = [] := by rw [preorderAux]
    simp [h0]
  | n :: rest =>
    have ih := preorderAux_append (children n ++ rest) l₂
    rw [List.cons_append, preorderAux, preorderAux, ← List.append_assoc, ih, List.cons_append]
termination_by sizeL l₁
decreasing_by
  have h := sizeL_children_lt n
  simp only [sizeL, sizeL_append]
  omega

theorem preorderAux_eq_flatMap (l : List Node) : preorderAux l = l.flatMap preorder := by
  induction l with
  | nil => rw [preorderAux, List.flatMap_nil]
  | cons n rest ih =>
    have h := preorderAux_append [n] rest
    rw [List.singleton_append] at h
    rw [h, ih, List.flatMap_cons]
    rfl

/-- Unfolding rule for the pre-order enumeration. -/
theorem preorder_eq (n : Node) : preorder n = n :: (children n).flatMap preorder := by
  show preorderAux [n] = _
  rw [preorderAux, List.append_nil, preorderAux_eq_flatMap]

/-- The breadth-first queue enumeration is a permutation of the concatenated
pre-order enumerations of the queue's subtrees. -/
theorem walkAux_perm (todo : List Node) : (walkAux todo).Perm (todo.flatMap preorder) := by
  match todo with
  | [] => rw [walkAux, List.flatMap_nil]
  | n :: rest =>
    have ih := walkAux_perm (rest ++ children n)
    rw [List.flatMap_append] at ih
    rw [walkAux, List.flatMap_cons, preorder_eq, List.cons_append]
    exact (ih.trans List.perm_append_comm).cons n
termination_by sizeL todo
decreasing_by
  have h := sizeL_children_lt n
  simp only [sizeL, sizeL_append]
  omega

/-- Breadth-first `ast.walk` enumerates the same nodes as the pre-order walk, only in a
different (breadth-first) order. -/
theorem walk_perm_preorder (n : Node) : (walk n).Perm (preorder n) := by
  have h := walkAux_perm [n]
  rw [List.flatMap_cons, List.flatMap_nil, List.append_nil] at h
  exact h

end Node

/-- The predicate applied by `_check_loop_body` / `_check_comp` to every node
yielded by `ast.walk`: a `Name` node in `Load` context whose identifier is one
of the known globals becomes a recorded `(id, lineno)` pair. -/
def refHit (globals_defined : List String) : Node → Option (String × Nat)
  | .name id .load lineno =>
      if globals_defined.contains id then some (id, lineno) else none
  | _ => none

namespace GlobalUsageChecker

/-- The scan `GlobalUsageChecker._check_loop_body`: walk the entire subtree of the loop
node (header included) with `ast.walk`, appending a `(id, lineno)` violation
for every load-context `Name` of a known global, in the breadth-first order
`ast.walk` yields them. -/
def check_loop_body (globals_defined : List String) (loop_node : Node) : List (String × Nat) :=
  (Node.walk loop_node).filterMap (refHit globals_defined)

/-- The scan `GlobalUsageChecker._check_comp`: textually identical to
`_check_loop_body` in the source. -/
def check_comp (globals_defined : List String) (comp_node : Node) : List (String × Nat) :=
  (Node.walk comp_node).filterMap (refHit globals_defined)

/-- The node kinds for which `GlobalUsageChecker` defines a `visit_X` method:
`For`, `While`, `ListComp`, `SetComp`, `DictComp`. -/
def isLoopOrComp : Node → Bool
  | .forStmt .. => true
  | .whileStmt .. => true
  | .listComp .. => true
  | .setComp .. => true
  | .dictComp .. => true
  | _ => false

/-- The violations appended while visiting one node, before recursing into its
children: loops run `_check_loop_body`, comprehensions run `_check_comp`, every
other kind of node appends nothing. -/
def scanOf (globals_defined : List String) (n : Node) : List (String × Nat) :=
  match n with
  | .forStmt .. => check_loop_body globals_defined n
  | .whileStmt .. => check_loop_body globals_defined n
  | .listComp .. => check_comp globals_defined n
  | .setComp .. => check_comp globals_defined n
  | .dictComp .. => check_comp globals_defined n
  | _ => []

/-- The entry point `checker.visit`, iterated over a stack of pending nodes: the visitor
dispatches on the node (appending `scanOf`) and then `generic_visit` recurses
into the children in field order, which is exactly a depth-first,
left-to-right traversal. -/
def visitAux (globals_defined : List String) : List Node → List (String × Nat)
  | [] => []
  | n :: stack => scanOf globals_defined n ++ visitAux globals_defined (Node.children n ++ stack)
termination_by l => Node.sizeL l
decreasing_by
  have h := Node.sizeL_children_lt n
  simp only [Node.sizeL, Node.sizeL_append]
  omega

/-- The full violation list collected by
`GlobalUsageChecker(globals_defined).visit(tree)`, in append order. -/
def visit (globals_defined : List String) (tree : Node) : List (String × Nat) :=
  visitAux globals_defined [tree]

theorem check_comp_eq_check_loop_body : check_comp = check_loop_body := rfl

theorem scanOf_eq (g : List String) (n : Node) :
    scanOf g n = if isLoopOrComp n then check_loop_body g n else [] := by
  cases n <;> rfl

theorem visitAux_append (g : List String) (l₁ l₂ : List Node) :
    visitAux g (l₁ ++ l₂) = visitAux g l₁ ++ visitAux g l₂ := by
  match l₁ with
  | [] =>
    have h0 : visitAux g ([] : List Node) = [] := by rw [visitAux]
    simp [h0]
  | n :: rest =>
    have ih := visitAux_append g (Node.children n ++ rest) l₂
    rw [List.cons_append, visitAux, visitAux, ← List.append_assoc, ih, ← List.append_assoc]
termination_by Node.sizeL l₁
decreasing_by
  have h := Node.sizeL_children_lt n
  simp only [Node.sizeL, Node.sizeL_append]
  omega

theorem visitAux_eq_flatMap (g : List String) (l : List Node) :
    visitAux g l = l.flatMap (visit g) := by
  induction l with
  | nil => rw [visitAux, List.flatMap_nil]
  | cons n rest ih =>
    have h := visitAux_append g [n] rest
    rw [List.singleton_append] at h
    rw [h, ih, List.flatMap_cons]
    rfl

/-- Unfolding rule for the visitor: visiting a node appends its own scan and
then the scans collected below each child, children in field order.  This is
exactly the `visit_X` / `generic_visit` recursion of `ast.NodeVisitor`. -/
theorem visit_eq (g : List String) (n : Node) :
    visit g n = scanOf g n ++ (Node.children n).flatMap (visit g) := by
  show visitAux g [n] = _
  rw [visitAux, List.append_nil, visitAux_eq_flatMap]

end GlobalUsageChecker

namespace GlobalUsageChecker

/-- Structure of the collected violations: the visitor's output is exactly the
concatenation, over all loop/comprehension nodes of the tree taken in
depth-first pre-order, of the breadth-first subtree scan run at that node. -/
theorem visit_structure (g : List String) (t : Node) :
    visit g t
      = ((Node.preorder t).filter isLoopOrComp).flatMap (check_loop_body g) := by
  have hch : ∀ c ∈ Node.children t,
      visit g c = ((Node.preorder c).filter isLoopOrComp).flatMap (check_loop_body g) := by
    intro c hc
    exact visit_structure g c
  rw [visit_eq, Node.preorder_eq, List.filter_cons, scanOf_eq]
  rw [List.flatMap_congr hch]
  rw [← List.flatMap_assoc, ← List.filter_flatMap]
  cases hl : isLoopOrComp t with
  | true => rw [if_pos rfl, if_pos rfl, List.flatMap_cons]
  | false => simp
termination_by Node.size t
decreasing_by
  exact Node.size_lt_of_mem_children hc

end GlobalUsageChecker

/-- Python `getattr(tree, "body", [])`: the `body` field of any node kind that
has one, and the `[]` default for every other node. -/
def bodyAttr : Node → List Node
  | .module body => body
  | .functionDef _ body => body
  | .classDef _ body => body
  | .forStmt _ _ body _ => body
  | .whileStmt _ body _ => body
  | .ifStmt _ body _ => body
  | _ => []

/-- The extractor `find_globals`: for every `Assign` statement directly in the tree's
`body`, append the identifier of every target that is a plain `Name` node,
in order.  (No deduplication, and every `Name` target of a multi-target
assignment is appended.) -/
def find_globals (tree : Node) : List String :=
  (bodyAttr tree).flatMap fun node =>
    match node with
    | .assign targets _ =>
        targets.filterMap fun target =>
          match target with
          | .name id _ _ => some id
          | _ => none
    | _ => []

/-- The `Violation` dataclass: `path`, `line`, `variable` (named `var` here
because `variable` is a reserved word in Lean). -/
structure Violation where
  path : String
  line : Nat
  var : String
deriving DecidableEq

/-- The renderer `Violation.format`: the flake8-style message.  The rule code is the
hard-coded literal `G001`; no other rule code exists in the checker. -/
def Violation.format (v : Violation) : String :=
  v.path ++ ":" ++ toString v.line ++ ":1: G001 global variable \x27" ++ v.var
    ++ "\x27 used inside a loop"

/-- Outcome of `path.read_text()` in `analyze_file`: either the file's text or
an `OSError`. -/
inductive ReadResult where
  | oserror
  | ok (source : String)

/-- Outcome of `ast.parse(source)`: a tree, or a `SyntaxError`. -/
inductive ParseResult where
  | syntaxError
  | parsed (tree : Node)

/-- The pipeline `analyze_file`, with its two external effects (reading the file, and the
black-box parser) supplied as explicit inputs.  Mirrors the control flow of
the source: an `OSError` while reading returns `[]`, a `SyntaxError` while
parsing returns `[]`, and otherwise the collected `(variable, line)` pairs of
`GlobalUsageChecker(find_globals(tree)).visit(tree)` are wrapped into
`Violation` records in order. -/
def analyze_file (path : String) (read : ReadResult) (parse : String → ParseResult) :
    List Violation :=
  match read with
  | .oserror => []
  | .ok source =>
    match parse source with
    | .syntaxError => []
    | .parsed tree =>
      let globals_ := find_globals tree
      (GlobalUsageChecker.visit globals_ tree).map fun p => ⟨path, p.2, p.1⟩

/-- The whitespace characters stripped by Python's `str.strip()` (ASCII). -/
def isPySpace (c : Char) : Bool :=
  c = ' ' || c = '\t' || c = '\n' || c = '\r' || c = '\x0b' || c = '\x0c'

/-- Python `s.strip(chars)` on a character list: remove the characters
satisfying `p` from both ends. -/
def stripEnds (p : Char → Bool) (l : List Char) : List Char :=
  ((l.dropWhile p).reverse.dropWhile p).reverse

/-- Python `s.split("/")` on a nonempty string: `""` splits to `[""]`, and
every `/` starts a new segment. -/
def splitOnSlash : List Char → List (List Char)
  | [] => [[]]
  | c :: rest =>
    let r := splitOnSlash rest
    if c = '/' then [] :: r
    else
      match r with
      | [] => [[c]]
      | h :: t => (c :: h) :: t

/-- The normalisation `_is_ignored` applies to both the relative path and each
pattern: `.strip().strip(os.sep).replace("\\", "/")` with `os.sep = "/"`. -/
def pyNormalize (l : List Char) : List Char :=
  (stripEnds (fun c => c = '/') (stripEnds isPySpace l)).map
    fun c => if c = '\\' then '/' else c

/-- The expression `normalized.split("/") if normalized else []` from `_is_ignored`. -/
def partsOf (normalized : List Char) : List (List Char) :=
  if normalized = [] then [] else splitOnSlash normalized

/-- One iteration of the pattern loop in `_is_ignored`: normalise the pattern,
skip it when the normalisation is empty, otherwise match by equality, by the
`pattern/` prefix, or by membership among the path's segments. -/
def patternHit (normalized : List Char) (parts : List (List Char)) (pattern : List Char) :
    Bool :=
  let pn := pyNormalize pattern
  if pn = [] then false
  else normalized == pn || List.isPrefixOf (pn ++ ['/']) normalized || parts.contains pn

/-- The predicate `_is_ignored(relative_path, ignored)`.  The `ignored` set is modelled as a
list; the result only asks whether some pattern matches, so the set's
iteration order is irrelevant. -/
def is_ignored (relative_path : String) (ignored : List String) : Bool :=
  if ignored.isEmpty then false
  else
    let normalized := pyNormalize relative_path.toList
    let parts := partsOf normalized
    ignored.any fun pattern => patternHit normalized parts pattern.toList

/-! Definitions taken from the wording of the specification and of the claims,
for comparison with the code. -/

/-- C2's per-node quantity: the number of load-context references to a known
global in the entire subtree of a node. -/
def loadRefCount (globals_defined : List String) (n : Node) : Nat :=
  ((Node.preorder n).filterMap (refHit globals_defined)).length

/-- C4's claimed violation order: the qualifying references as they occur in a
single depth-first, left-to-right pre-order walk of the whole tree. -/
def preorderRefs (globals_defined : List String) (t : Node) : List (String × Nat) :=
  (Node.preorder t).filterMap (refHit globals_defined)

/-- C6's hypothesis, decidably: the name `g` has no load-context reference
anywhere inside the subtree of any loop or comprehension node of `t`. -/
def noLoopLoadRef (g : String) (t : Node) : Bool :=
  (Node.preorder t).all fun m =>
    !GlobalUsageChecker.isLoopOrComp m ||
      (Node.preorder m).all fun c =>
        match c with
        | .name id Ctx.load _ => !(id == g)
        | _ => true

/-- Keep the first occurrence of every name, dropping later duplicates. -/
def dedupFirstSeen (seen : List String) : List String → List String
  | [] => []
  | x :: rest =>
    if seen.contains x then dedupFirstSeen seen rest
    else x :: dedupFirstSeen (x :: seen) rest

/-- The extractor exactly as C3 words it: the ordered, duplicate-free
(first-seen) list of names assigned by a simple single-target,
non-destructured assignment directly at the program root. -/
def find_globals_claim (tree : Node) : List String :=
  dedupFirstSeen []
    ((bodyAttr tree).filterMap fun node =>
      match node with
      | .assign [Node.name id _ _] _ => some id
      | _ => none)

/-- The identifiers of the plain-`Name` nodes in a target list. -/
def nameTargets : List Node → List String
  | [] => []
  | Node.name id _ _ :: rest => id :: nameTargets rest
  | _ :: rest => nameTargets rest

/-- C3's amended contract, stated independently: walk the top-level statement
list; each assignment contributes the identifiers of all its plain-`Name`
targets, in order, duplicates retained. -/
def topLevelNameTargets : List Node → List String
  | [] => []
  | Node.assign targets _ :: rest => nameTargets targets ++ topLevelNameTargets rest
  | _ :: rest => topLevelNameTargets rest

/-- The ignore predicate exactly as C8 words it, for a single pattern: the
normalised path equals the pattern, starts with the pattern followed by `/`,
or the pattern equals one of the path's slash-separated segments.  (C8 applies
no normalisation to the pattern itself.) -/
def is_ignored_claim (relative_path : String) (pattern : String) : Bool :=
  let normalized := pyNormalize relative_path.toList
  normalized == pattern.toList ||
    List.isPrefixOf (pattern.toList ++ ['/']) normalized ||
    (partsOf normalized).contains pattern.toList

/-! Helper lemmas. -/

theorem refHit_eq_some {g : List String} {c : Node} {p : String × Nat} :
    refHit g c = some p ↔
      c = Node.name p.1 Ctx.load p.2 ∧ g.contains p.1 = true := by
  constructor
  · intro h
    match c with
    | .name id ctx lineno =>
      match ctx with
      | Ctx.load =>
        rw [refHit] at h
        by_cases hg : g.contains id = true
        · rw [if_pos hg] at h
          obtain rfl : (id, lineno) = p := Option.some_injective _ h
          exact ⟨rfl, hg⟩
        · rw [if_neg hg] at h
          cases h
      | Ctx.store => cases h
    | .module b => cases h
    | .functionDef a b => cases h
    | .classDef a b => cases h
    | .ret a => cases h
    | .retNone => cases h
    | .assign a b => cases h
    | .augAssign a b => cases h
    | .forStmt a b e f => cases h
    | .whileStmt a b e => cases h
    | .ifStmt a b e => cases h
    | .exprStmt a => cases h
    | .pass => cases h
    | .breakStmt => cases h
    | .call a b => cases h
    | .binOp a b => cases h
    | .compare a b => cases h
    | .constant => cases h
    | .listComp a b => cases h
    | .setComp a b => cases h
    | .dictComp a b e => cases h
    | .comprehension a b e => cases h
    | .attr a b e => cases h
    | .subscript a b e => cases h
    | .tuple a b => cases h
    | .listExpr a b => cases h
  · rintro ⟨rfl, hg⟩
    rw [refHit, if_pos hg]

theorem mem_check_loop_body {g : List String} {m : Node} {p : String × Nat} :
    p ∈ GlobalUsageChecker.check_loop_body g m ↔
      Node.name p.1 Ctx.load p.2 ∈ Node.preorder m ∧ g.contains p.1 = true := by
  rw [GlobalUsageChecker.check_loop_body]
  rw [List.mem_filterMap]
  constructor
  · rintro ⟨c, hc, hhit⟩
    obtain ⟨rfl, hg⟩ := refHit_eq_some.mp hhit
    exact ⟨((Node.walk_perm_preorder m).mem_iff).mp hc, hg⟩
  · rintro ⟨hmem, hg⟩
    refine ⟨Node.name p.1 Ctx.load p.2, ((Node.walk_perm_preorder m).mem_iff).mpr hmem, ?_⟩
    exact refHit_eq_some.mpr ⟨rfl, hg⟩

theorem self_mem_preorder (n : Node) : n ∈ Node.preorder n := by
  rw [Node.preorder_eq]
  exact List.mem_cons_self n _

theorem preorder_subset_of_mem_children {c t : Node} (hc : c ∈ Node.children t) :
    ∀ x ∈ Node.preorder c, x ∈ Node.preorder t := by
  intro x hx
  rw [Node.preorder_eq]
  exact List.mem_cons_of_mem t (List.mem_flatMap.mpr ⟨c, hc, hx⟩)

theorem preorder_trans {m t : Node} (hm : m ∈ Node.preorder t) :
    ∀ x ∈ Node.preorder m, x ∈ Node.preorder t := by
  rw [Node.preorder_eq] at hm
  rcases List.mem_cons.mp hm with rfl | hm
  · exact fun x hx => hx
  · obtain ⟨c, hc, hmc⟩ := List.mem_flatMap.mp hm
    intro x hx
    exact preorder_subset_of_mem_children hc x (preorder_trans hmc x hx)
termination_by Node.size t
decreasing_by
  exact Node.size_lt_of_mem_children hc

/-! Concrete programs used as inputs below. -/

/-- Parsed tree of `X = 1\nclass A:\n def m(self):\n  return X`. -/
def c1Tree : Node :=
  .module
    [.assign [.name "X" Ctx.store 1] .constant,
     .classDef "A"
       [.functionDef "m"
         [.ret (.name "X" Ctx.load 4)]]]

/-- The source text of `c1Tree`. -/
def c1Src : String := "X = 1\nclass A:\n def m(self):\n  return X"

/-- A parser stub that recognises exactly `c1Src`. -/
def c1Parse (s : String) : ParseResult :=
  if s = c1Src then ParseResult.parsed c1Tree else ParseResult.syntaxError

/-- Parsed tree of
`G = 1\nH = 2\nfor i in x:\n    f(f(G))\n    H`. -/
def c4Tree : Node :=
  .module
    [.assign [.name "G" Ctx.store 1] .constant,
     .assign [.name "H" Ctx.store 2] .constant,
     .forStmt (.name "i" Ctx.store 3) (.name "x" Ctx.load 3)
       [.exprStmt (.call (.name "f" Ctx.load 4) [.call (.name "f" Ctx.load 4) [.name "G" Ctx.load 4]]),
        .exprStmt (.name "H" Ctx.load 5)]
       []]

/-- Parsed tree of `X = 1\nX = 2\na = b = 3`. -/
def c3Tree : Node :=
  .module
    [.assign [.name "X" Ctx.store 1] .constant,
     .assign [.name "X" Ctx.store 2] .constant,
     .assign [.name "a" Ctx.store 3, .name "b" Ctx.store 3] .constant]

/-- Parsed tree of
`GLOBAL = 10\ndef func():\n    g = GLOBAL\n    for i in range(5):\n        print(g)`:
the global is copied to a local before the loop and only the local is read
inside the loop. -/
def c6Tree : Node :=
  .module
    [.assign [.name "GLOBAL" Ctx.store 1] .constant,
     .functionDef "func"
       [.assign [.name "g" Ctx.store 3] (.name "GLOBAL" Ctx.load 3),
        .forStmt (.name "i" Ctx.store 4) (.call (.name "range" Ctx.load 4) [.constant])
          [.exprStmt (.call (.name "print" Ctx.load 5) [.name "g" Ctx.load 5])]
          []]]

/-- Parsed tree of `GLOBAL = True\ndef func():\n    while GLOBAL:\n        break`:
the global is read only in the `while` header, not in the loop body. -/
def c9Tree : Node :=
  .module
    [.assign [.name "GLOBAL" Ctx.store 1] .constant,
     .functionDef "func"
       [.whileStmt (.name "GLOBAL" Ctx.load 3) [.breakStmt] []]]

/-! The claims. -/

/-- C1: the claim says analysing `X = 1\nclass A:\n def m(self):\n  return X`
produces exactly one G002 violation for `X` at line 1 mentioning `class 'A'`.
The checker in `checker.py` implements no G002 rule at all (its `Violation`
record has no rule-code field and `format` hard-codes `G001`), and the
visitor only reports globals referenced under loop/comprehension nodes, so
this file — which contains no loop — produces no violation whatsoever. -/
theorem analyze_file_c1_source_yields_no_violation :
    analyze_file "mod.py" (ReadResult.ok c1Src) c1Parse = [] := by
  simp [analyze_file, c1Parse, c1Src, c1Tree, find_globals, bodyAttr,
    GlobalUsageChecker.visit, GlobalUsageChecker.visitAux, GlobalUsageChecker.scanOf,
    Node.children]

/-- C5: if reading the candidate file fails with an I/O error, or the parser
rejects its content with a syntax error, `analyze_file` returns the empty
violation list (and, being a total function, raises nothing). -/
theorem analyze_file_error_recovery (path source : String) (parse : String → ParseResult) :
    analyze_file path ReadResult.oserror parse = [] ∧
      (parse source = ParseResult.syntaxError →
        analyze_file path (ReadResult.ok source) parse = []) := by
  refine ⟨rfl, fun h => ?_⟩
  simp [analyze_file, h]

/-- Witness for C5 at a concrete path, source and failing parser. -/
theorem analyze_file_error_recovery_witness :
    analyze_file "f.py" ReadResult.oserror (fun _ => ParseResult.syntaxError) = [] ∧
      analyze_file "f.py" (ReadResult.ok "def (") (fun _ => ParseResult.syntaxError) = [] :=
  ⟨(analyze_file_error_recovery "f.py" "def (" (fun _ => ParseResult.syntaxError)).1,
   (analyze_file_error_recovery "f.py" "def (" (fun _ => ParseResult.syntaxError)).2 rfl⟩

/-- C2: the total number of violations collected by the classifier equals the
sum, over all loop and comprehension nodes of the tree, of the number of
load-context references to a known global in that node's entire subtree — a
reference nested under n enclosing loop/comprehension nodes is counted once
per enclosing scan. -/
theorem visit_length_eq_sum_of_subtree_counts (globals_defined : List String) (t : Node) :
    (GlobalUsageChecker.visit globals_defined t).length
      = (((Node.preorder t).filter GlobalUsageChecker.isLoopOrComp).map
          (loadRefCount globals_defined)).sum := by
  rw [GlobalUsageChecker.visit_structure, List.length_flatMap]
  congr 1
  apply List.map_congr_left
  intro m _
  show (GlobalUsageChecker.check_loop_body globals_defined m).length = _
  rw [GlobalUsageChecker.check_loop_body, loadRefCount]
  exact ((Node.walk_perm_preorder m).filterMap (refHit globals_defined)).length_eq

/-- C3 counterexample: on `X = 1\nX = 2\na = b = 3`, `find_globals` returns
`["X", "X", "a", "b"]` — it keeps duplicate assignments to the same name and
it includes every `Name` target of the multi-target assignment `a = b = 3` —
whereas the claimed contract (ordered, duplicate-free, single-target-only)
would return `["X"]`. -/
theorem find_globals_not_claim_contract : find_globals c3Tree ≠ find_globals_claim c3Tree := by
  decide

theorem nameTargets_eq_filterMap (targets : List Node) :
    (targets.filterMap fun target =>
      match target with
      | Node.name id _ _ => some id
      | _ => none) = nameTargets targets := by
  induction targets with
  | nil => rfl
  | cons t rest ih => cases t <;> simp [List.filterMap_cons, nameTargets, ih]

/-- C3 amended: `find_globals` returns, in order, the identifier of every
plain-`Name` target of every `Assign` statement that is a direct child of the
program root — one entry per target occurrence, so repeated top-level
assignments to a name appear once per assignment, and each `Name` target of a
multi-target assignment is included; tuple/attribute/subscript targets and
nested assignments are still excluded. -/
theorem find_globals_amended_contract (tree : Node) :
    find_globals tree = topLevelNameTargets (bodyAttr tree) := by
  rw [find_globals]
  induction bodyAttr tree with
  | nil => rfl
  | cons n rest ih =>
    rw [List.flatMap_cons, ih]
    cases n <;> simp [topLevelNameTargets, nameTargets_eq_filterMap]

/-- C4 counterexample: on `G = 1\nH = 2\nfor i in x:\n    f(f(G))\n    H` the
checker reports `[("H", 5), ("G", 4)]` — `ast.walk` scans the loop subtree
breadth-first, so the shallow reference to `H` on line 5 is recorded before
the nested reference to `G` on line 4 — while a single depth-first
left-to-right pre-order walk yields `[("G", 4), ("H", 5)]`. -/
theorem visit_order_not_preorder :
    GlobalUsageChecker.visit (find_globals c4Tree) c4Tree
      ≠ preorderRefs (find_globals c4Tree) c4Tree := by
  have h1 : GlobalUsageChecker.visit (find_globals c4Tree) c4Tree = [("H", 5), ("G", 4)] := by
    simp [c4Tree, find_globals, bodyAttr, GlobalUsageChecker.visit, GlobalUsageChecker.visitAux,
      GlobalUsageChecker.scanOf, GlobalUsageChecker.check_loop_body,
      GlobalUsageChecker.check_comp, Node.walk, Node.walkAux, Node.children, refHit]
  have h2 : preorderRefs (find_globals c4Tree) c4Tree = [("G", 4), ("H", 5)] := by
    simp [c4Tree, find_globals, bodyAttr, preorderRefs, Node.preorder, Node.preorderAux,
      Node.children, refHit]
  rw [h1, h2]
  decide

/-- C4 amended: the violation sequence is the concatenation, over the loop and
comprehension nodes of the tree taken in depth-first left-to-right pre-order,
of that node's whole-subtree scan, where each scan lists its qualifying
references in the breadth-first order of `ast.walk` (not in a single pre-order
walk of the tree). -/
theorem visit_order_amended (globals_defined : List String) (t : Node) :
    GlobalUsageChecker.visit globals_defined t
      = ((Node.preorder t).filter GlobalUsageChecker.isLoopOrComp).flatMap
          (GlobalUsageChecker.check_loop_body globals_defined) :=
  GlobalUsageChecker.visit_structure globals_defined t

/-- C6: if a name has no load-context reference anywhere inside the subtree of
any loop or comprehension node (for instance because the global was copied to
a local before the loop and only the local is used inside it), the classifier
produces no violation for that name, whatever the set of known globals. -/
theorem no_loop_ref_no_violation {g : String} {t : Node}
    (h : noLoopLoadRef g t = true) :
    ∀ (globals_defined : List String) (l : Nat),
      (g, l) ∉ GlobalUsageChecker.visit globals_defined t := by
  intro gs l hmem
  rw [GlobalUsageChecker.visit_structure] at hmem
  obtain ⟨m, hmfil, hp⟩ := List.mem_flatMap.mp hmem
  obtain ⟨hmpre, hml⟩ := List.mem_filter.mp hmfil
  obtain ⟨hname, _⟩ := mem_check_loop_body.mp hp
  have hall := List.all_eq_true.mp h m hmpre
  rw [hml] at hall
  simp only [Bool.not_true, Bool.false_or] at hall
  have hc := List.all_eq_true.mp hall _ hname
  simp at hc

/-- Witness for C6: on the local-copy program `c6Tree`, the hypothesis holds
and no violation for `GLOBAL` is produced. -/
theorem no_loop_ref_no_violation_witness :
    noLoopLoadRef "GLOBAL" c6Tree = true ∧
      ("GLOBAL", 5) ∉ GlobalUsageChecker.visit ["GLOBAL"] c6Tree := by
  have h : noLoopLoadRef "GLOBAL" c6Tree = true := by
    simp [noLoopLoadRef, c6Tree, Node.preorder, Node.preorderAux, Node.children,
      GlobalUsageChecker.isLoopOrComp]
  exact ⟨h, no_loop_ref_no_violation h ["GLOBAL"] 5⟩

/-- C7: every violation the classifier emits corresponds to a load-context
`Name` reference present in the tree whose identifier is a known global; in
particular a store-context occurrence never produces a violation. -/
theorem violation_is_load_ref {globals_defined : List String} {t : Node} {p : String × Nat}
    (h : p ∈ GlobalUsageChecker.visit globals_defined t) :
    Node.name p.1 Ctx.load p.2 ∈ Node.preorder t ∧ globals_defined.contains p.1 = true := by
  rw [GlobalUsageChecker.visit_structure] at h
  obtain ⟨m, hmfil, hp⟩ := List.mem_flatMap.mp h
  obtain ⟨hmpre, _⟩ := List.mem_filter.mp hmfil
  obtain ⟨hname, hg⟩ := mem_check_loop_body.mp hp
  exact ⟨preorder_trans hmpre _ hname, hg⟩

/-- Witness for C7 at a concrete violation of a concrete program. -/
theorem violation_is_load_ref_witness :
    ("G", 4) ∈ GlobalUsageChecker.visit ["G", "H"] c4Tree ∧
      (Node.name "G" Ctx.load 4 ∈ Node.preorder c4Tree ∧
        ["G", "H"].contains "G" = true) := by
  have h : ("G", 4) ∈ GlobalUsageChecker.visit ["G", "H"] c4Tree := by
    simp [c4Tree, GlobalUsageChecker.visit, GlobalUsageChecker.visitAux,
      GlobalUsageChecker.scanOf, GlobalUsageChecker.check_loop_body,
      GlobalUsageChecker.check_comp, Node.walk, Node.walkAux, Node.children, refHit]
  exact ⟨h, violation_is_load_ref h⟩

/-- C9: a load-context reference to a known global in a loop's header — the
`for` statement's iterable or the `while` condition — produces a violation
exactly like a reference in the loop body, because the scan walks the whole
loop node's subtree. -/
theorem header_ref_is_violation {globals_defined : List String} {g : String} {l : Nat}
    {t m : Node} (hm : m ∈ Node.preorder t)
    (hhead :
      (∃ target iter body orelse, m = Node.forStmt target iter body orelse ∧
        Node.name g Ctx.load l ∈ Node.preorder iter) ∨
      (∃ test body orelse, m = Node.whileStmt test body orelse ∧
        Node.name g Ctx.load l ∈ Node.preorder test))
    (hg : globals_defined.contains g = true) :
    (g, l) ∈ GlobalUsageChecker.visit globals_defined t := by
  rw [GlobalUsageChecker.visit_structure]
  apply List.mem_flatMap.mpr
  have hloop : GlobalUsageChecker.isLoopOrComp m = true := by
    rcases hhead with ⟨_, _, _, _, rfl, _⟩ | ⟨_, _, _, rfl, _⟩ <;> rfl
  refine ⟨m, List.mem_filter.mpr ⟨hm, hloop⟩, mem_check_loop_body.mpr ⟨?_, hg⟩⟩
  rcases hhead with ⟨target, iter, body, orelse, rfl, href⟩ | ⟨test, body, orelse, rfl, href⟩
  · have hch : iter ∈ Node.children (Node.forStmt target iter body orelse) := by
      simp [Node.children]
    exact preorder_subset_of_mem_children hch _ href
  · have hch : test ∈ Node.children (Node.whileStmt test body orelse) := by
      simp [Node.children]
    exact preorder_subset_of_mem_children hch _ href

/-- Witness for C9: on `GLOBAL = True\ndef func():\n    while GLOBAL:\n        break`
the reference in the `while` condition on line 3 is reported. -/
theorem header_ref_is_violation_witness :
    (Node.whileStmt (.name "GLOBAL" Ctx.load 3) [.breakStmt] [] ∈ Node.preorder c9Tree) ∧
      ("GLOBAL", 3) ∈ GlobalUsageChecker.visit ["GLOBAL"] c9Tree := by
  have hm : Node.whileStmt (.name "GLOBAL" Ctx.load 3) [.breakStmt] [] ∈ Node.preorder c9Tree := by
    simp [c9Tree, Node.preorder, Node.preorderAux, Node.children]
  refine ⟨hm, header_ref_is_violation hm (Or.inr ⟨_, _, _, rfl, ?_⟩) (by simp)⟩
  simp [Node.preorder, Node.preorderAux, Node.children]

/-- C10: the classifier's output depends only on the set of names supplied as
`globals_defined`: two inputs with the same members (in any order, with any
duplication) give identical violation sequences on the same tree. -/
theorem visit_depends_only_on_name_set {gs₁ gs₂ : List String} (t : Node)
    (h : ∀ x, x ∈ gs₁ ↔ x ∈ gs₂) :
    GlobalUsageChecker.visit gs₁ t = GlobalUsageChecker.visit gs₂ t := by
  have hc : ∀ x : String, gs₁.contains x = gs₂.contains x := by
    intro x
    have h1 : gs₁.contains x = true ↔ x ∈ gs₁ := by simp
    have h2 : gs₂.contains x = true ↔ x ∈ gs₂ := by simp
    cases hx1 : gs₁.contains x <;> cases hx2 : gs₂.contains x
    · rfl
    · exact absurd (h1.mpr ((h x).mpr (h2.mp hx2))) (by rw [hx1]; simp)
    · exact absurd (h2.mpr ((h x).mp (h1.mp hx1))) (by rw [hx2]; simp)
    · rfl
  rw [GlobalUsageChecker.visit_structure, GlobalUsageChecker.visit_structure]
  apply List.flatMap_congr
  intro m _
  rw [GlobalUsageChecker.check_loop_body, GlobalUsageChecker.check_loop_body]
  apply List.filterMap_congr
  intro c _
  match c with
  | .name id Ctx.load lineno => rw [refHit, refHit, hc id]
  | .name id Ctx.store lineno => rfl
  | .module b => rfl
  | .functionDef a b => rfl
  | .classDef a b => rfl
  | .ret a => rfl
  | .retNone => rfl
  | .assign a b => rfl
  | .augAssign a b => rfl
  | .forStmt a b e f => rfl
  | .whileStmt a b e => rfl
  | .ifStmt a b e => rfl
  | .exprStmt a => rfl
  | .pass => rfl
  | .breakStmt => rfl
  | .call a b => rfl
  | .binOp a b => rfl
  | .compare a b => rfl
  | .constant => rfl
  | .listComp a b => rfl
  | .setComp a b => rfl
  | .dictComp a b e => rfl
  | .comprehension a b e => rfl
  | .attr a b e => rfl
  | .subscript a b e => rfl
  | .tuple a b => rfl
  | .listExpr a b => rfl

/-- Witness for C10: `["A", "B", "B"]` and `["B", "A"]` contain the same
names, and the checker's outputs on `c4Tree` coincide. -/
theorem visit_depends_only_on_name_set_witness :
    (∀ x, x ∈ ["A", "B", "B"] ↔ x ∈ ["B", "A"]) ∧
      GlobalUsageChecker.visit ["A", "B", "B"] c4Tree
        = GlobalUsageChecker.visit ["B", "A"] c4Tree := by
  have h : ∀ x, x ∈ ["A", "B", "B"] ↔ x ∈ ["B", "A"] := by
    intro x
    simp only [List.mem_cons, List.not_mem_nil, or_false]
    tauto
  exact ⟨h, visit_depends_only_on_name_set c4Tree h⟩

/-- C8 counterexample: the claim ignores the normalisation `_is_ignored`
applies to each pattern and its skipping of empty patterns.  Pattern `"foo/"`
matches path `"foo"` in the code (the pattern is first stripped of its
trailing slash) but not under the claim's literal reading; and the empty
pattern `""` matches the empty path under the claim's reading (equality
holds) but is skipped by the code. -/
theorem is_ignored_counterexample :
    is_ignored "foo" ["foo/"] ≠ is_ignored_claim "foo" "foo/" ∧
      is_ignored "" [""] ≠ is_ignored_claim "" "" := by
  decide

/-- C8 amended: for a single ignore pattern, `_is_ignored` holds iff the
pattern's own normalisation (whitespace stripped, surrounding slashes
stripped, backslashes replaced by slashes) is nonempty and the normalised
path equals the normalised pattern, starts with the normalised pattern
followed by `/`, or the normalised pattern equals one of the path's
slash-separated segments. -/
theorem is_ignored_single_pattern_iff (relative_path pattern : String) :
    is_ignored relative_path [pattern] = true ↔
      (pyNormalize pattern.toList ≠ [] ∧
        (pyNormalize relative_path.toList = pyNormalize pattern.toList ∨
          List.isPrefixOf (pyNormalize pattern.toList ++ ['/'])
            (pyNormalize relative_path.toList) = true ∨
          pyNormalize pattern.toList ∈ partsOf (pyNormalize relative_path.toList))) := by
  rw [is_ignored]
  by_cases hpn : pyNormalize pattern.data = []
  · simp [patternHit, hpn]
  · simp [patternHit, hpn]
    tauto
